import Mathlib

/-!
Shallow embedding of `cmd/bosun/sched/template.go` (bosun): the rendering
context's expression resolver (`Context.eval`), lookup and metadata
resolvers (`Context.LookupAll`, `Context.GetMeta`), graph dispatch
(`Context.graph`, `Context.Graph`, `Context.GraphAll`), the left-join
correlation engine (`Context.LeftJoin`) and subject post-processing
(`Schedule.ExecuteSubject`).

External collaborators (the expression compiler `expr.New`, the evaluation
engine `Expr.Execute`, tag rewriting `opentsdb.ReplaceTags`, the PNG/SVG
rasterizers, lookup-table storage and the metadata store) are modelled as
function-valued parameters, so theorems quantifying over them express that
a code path does not depend on (does not invoke) a collaborator.
-/

set_option autoImplicit false

namespace BosunSched

/-- A tag group: a mapping of tag key to tag value (Go `opentsdb.TagSet`),
modelled as an association list. -/
abbrev TagSet := List (String × String)

/-- Modelled from the spec: `opentsdb.TagSet.Subset` (not under src/) —
group A is a subset of group B iff every key/value pair in A also appears
in B. -/
def tagSubset (a b : TagSet) : Bool :=
  a.all (fun p => b.contains p)

/-- Splits a character list on a separator, keeping empty chunks. -/
def splitOnChar (sep : Char) : List Char → List (List Char)
  | [] => [[]]
  | c :: rest =>
    if c = sep then [] :: splitOnChar sep rest
    else
      match splitOnChar sep rest with
      | [] => [[c]]
      | w :: ws => (c :: w) :: ws

/-- Modelled from the spec: `opentsdb.ParseTags` (not under src/) parses
one serialized `key=value` pair; malformed input yields `none`. -/
def parseTag (w : List Char) : Option (String × String) :=
  match splitOnChar '=' w with
  | [k, v] => if k = [] ∨ v = [] then none else some (String.mk k, String.mk v)
  | _ => none

/-- Modelled from the spec: `opentsdb.ParseTags` (not under src/) parses a
serialized tag string (comma-separated `key=value` pairs) into a Tag
Group; malformed input fails the call. -/
def parseTags (s : String) : Except String TagSet :=
  match (splitOnChar ',' s.data).mapM parseTag with
  | some ps => Except.ok ps
  | none => Except.error ("invalid tags: " ++ s)

/-- A value carried by a `Result` (Go `expr.Value`); `nan` models
`expr.Number(math.NaN())`, the sentinel used by `LeftJoin`. -/
inductive EValue where
  | num (x : Int)
  | nan
  | strv (s : String)
  deriving DecidableEq

/-- Go `expr.Result`: a value annotated with its tag group. -/
structure Result where
  Value : EValue
  Group : TagSet
  deriving DecidableEq

/-- The sentinel result `&expr.Result{Value: expr.Number(math.NaN())}`
written by `LeftJoin` into unmatched cells. -/
def nanResult : Result := { Value := EValue.nan, Group := [] }

/-- The declared return type of a compiled expression
(Go `parse.FuncType`, read via `e.Root.Return()`). -/
inductive RetType where
  | series
  | number
  | scalar
  | stringType
  deriving DecidableEq

/-- A compiled expression (Go `*expr.Expr`): its text and the declared
return type of its root node. -/
structure Expr where
  Text : String
  ret : RetType
  deriving DecidableEq

/-- The dynamically-typed argument of `Context.eval` (Go `interface\x7b\x7d`):
a string, an already-compiled expression, or anything else (carrying its
Go type name `%T` and display `%v`). -/
inductive EvalInput where
  | str (s : String)
  | exprObj (e : Expr)
  | other (typeName : String) (display : String)
  deriving DecidableEq

/-- How `fmt` verbs display an eval input (`%v` / `%s`); a string prints
itself, a compiled expression prints via its `String()` method. -/
def inputDisplay : EvalInput → String
  | EvalInput.str s => s
  | EvalInput.exprObj e => e.Text
  | EvalInput.other _ d => d

/-- The error text `fmt.Errorf("expected string or expression, got %T (%v)", v, v)`. -/
def badInputMsg (typeName display : String) : String :=
  "expected string or expression, got " ++ typeName ++ " (" ++ display ++ ")"

/-- Collaborators used while resolving an expression: the compiler
`expr.New(text, funcs)` and the tag substitution `opentsdb.ReplaceTags`. -/
structure ResolveDeps where
  exprNew : String → Except String Expr
  replaceTags : String → TagSet → String

/-- The evaluation engine `e.Execute(...)` (collaborator): given the
resolved expression and the autods hint, produces a result slice or fails. -/
abbrev ExecFn := Expr → Nat → Except String (List Result)

/-- The `switch v := v.(type)` at the top of `Context.eval`: a string is
compiled (a compile failure is wrapped as `"%v: %v"`), a compiled
expression passes through, anything else is the fatal input error. -/
def resolveInput (rd : ResolveDeps) (v : EvalInput) : Except String Expr :=
  match v with
  | EvalInput.str s =>
    match rd.exprNew s with
    | Except.ok e => Except.ok e
    | Except.error err => Except.error (s ++ ": " ++ err)
  | EvalInput.exprObj e => Except.ok e
  | EvalInput.other tn d => Except.error (badInputMsg tn d)

/-- Resolution plus the `if filter` branch of `Context.eval`: rewrite the
compiled text with `opentsdb.ReplaceTags(e.Text, c.State.Group)` and
recompile; a recompile failure is surfaced unwrapped. -/
def evalResolve (rd : ResolveDeps) (group : TagSet) (v : EvalInput) (filter : Bool) :
    Except String Expr :=
  match resolveInput rd v with
  | Except.error e => Except.error e
  | Except.ok e =>
    if filter then rd.exprNew (rd.replaceTags e.Text group) else Except.ok e

/-- Go `Context.eval(v, filter, series, autods)`: resolve, enforce the
series return type when requested, then execute; an execution failure is
wrapped as `"%s: %v"` with the original input. Returns the result slice
and the display string `e.String()`. -/
def eval (rd : ResolveDeps) (exec : ExecFn) (group : TagSet) (v : EvalInput)
    (filter series : Bool) (autods : Nat) : Except String (List Result × String) :=
  match evalResolve rd group v filter with
  | Except.error e => Except.error e
  | Except.ok e =>
    if series ∧ e.ret ≠ RetType.series then
      Except.error "egraph: requires an expression that returns a series"
    else
      match exec e autods with
      | Except.error err => Except.error (inputDisplay v ++ ": " ++ err)
      | Except.ok res => Except.ok (res, e.Text)

/-- An email attachment (Go `conf.Attachment`): data bytes, filename,
content type. -/
structure Attachment where
  Data : String
  Filename : String
  ContentType : String
  deriving DecidableEq

/-- The rendering context fields this core reads and writes: the alert
state's tag group and the attachment list (`nil` vs initialized empty). -/
structure Context where
  group : TagSet
  attachments : Option (List Attachment)
  deriving DecidableEq

/-- Go `Schedule.Data(rh, st, a, isEmail)`: the attachment list is
initialized (empty, non-nil) exactly when the render target is an email. -/
def Data (group : TagSet) (isEmail : Bool) : Context :=
  { group := group
    attachments := if isEmail then some [] else none }

/-- Go `Context.IsEmail`: true iff the attachment list is non-nil. -/
def IsEmail (c : Context) : Bool :=
  c.attachments.isSome

/-- The two rasterizer collaborators (`Schedule.ExprPNG`,
`Schedule.ExprSVG`): results and title in, image bytes or markup out. -/
structure GraphDeps where
  exprPNG : List Result → String → Except String String
  exprSVG : List Result → String → Except String String

/-- Go `template.HTMLEscapeString`: escapes the five special characters. -/
def htmlEscapeChar (c : Char) : String :=
  if c = '<' then "&lt;"
  else if c = '>' then "&gt;"
  else if c = '&' then "&amp;"
  else if c = '\x27' then "&#39;"
  else if c = '\x22' then "&#34;"
  else String.singleton c

/-- Go `template.HTMLEscapeString` over a whole string. -/
def htmlEscape (s : String) : String :=
  String.join (s.data.map htmlEscapeChar)

/-- The inline-image reference built by `Context.graph` for email renders:
`<img alt="%s" src="cid:%s" />`. -/
def imgTag (alt name : String) : String :=
  "<img alt=\x22" ++ htmlEscape alt ++ "\x22 src=\x22cid:" ++ name ++ "\x22 />"

/-- Go `Context.graph(v, filter)`: evaluate requiring a series (autods
1000); on an email pass rasterize to PNG, append an attachment named
`<len+1>.png` with content type `image/png` and return the image tag; on a
non-email pass rasterize to SVG and return the markup. Returns the
template value (or error) together with the updated context. -/
def graph (rd : ResolveDeps) (exec : ExecFn) (gd : GraphDeps) (c : Context)
    (v : EvalInput) (filter : Bool) : Except String String × Context :=
  match eval rd exec c.group v filter true 1000 with
  | Except.error e => (Except.error e, c)
  | Except.ok (res, title) =>
    match c.attachments with
    | some atts =>
      match gd.exprPNG res title with
      | Except.error e => (Except.error e, c)
      | Except.ok dat =>
        let name := toString (atts.length + 1) ++ ".png"
        let att : Attachment := { Data := dat, Filename := name, ContentType := "image/png" }
        (Except.ok (imgTag (inputDisplay v) name),
         { c with attachments := some (atts ++ [att]) })
    | none =>
      match gd.exprSVG res title with
      | Except.error e => (Except.error e, c)
      | Except.ok svg => (Except.ok svg, c)

/-- Go `Context.Graph`: graph with group filtering. -/
def Graph (rd : ResolveDeps) (exec : ExecFn) (gd : GraphDeps) (c : Context)
    (v : EvalInput) : Except String String × Context :=
  graph rd exec gd c v true

/-- Go `Context.GraphAll`: graph without group filtering. -/
def GraphAll (rd : ResolveDeps) (exec : ExecFn) (gd : GraphDeps) (c : Context)
    (v : EvalInput) : Except String String × Context :=
  graph rd exec gd c v false

/-- Go `Context.Eval`: filtered scalar evaluation returning the first
result's value, or `"no results returned"` when the slice is empty. -/
def CtxEval (rd : ResolveDeps) (exec : ExecFn) (c : Context) (v : EvalInput) :
    Except String EValue :=
  match eval rd exec c.group v true false 0 with
  | Except.error e => Except.error e
  | Except.ok (res, _) =>
    match res with
    | [] => Except.error "no results returned"
    | r :: _ => Except.ok r.Value

/-- Go `Context.EvalAll`: unfiltered evaluation returning the whole
result slice. -/
def EvalAll (rd : ResolveDeps) (exec : ExecFn) (c : Context) (v : EvalInput) :
    Except String (List Result) :=
  match eval rd exec c.group v false false 0 with
  | Except.error e => Except.error e
  | Except.ok (res, _) => Except.ok res

/-- The `group interface\x7b\x7d` argument of `Context.LookupAll` /
`Context.GetMeta`: a tag string, a tag set, or any other value. -/
inductive GroupArg where
  | gstr (s : String)
  | gtags (t : TagSet)
  | gother (typeName : String)
  deriving DecidableEq

/-- The `switch v := group.(type)` shared by `LookupAll` and `GetMeta`: a
string is parsed (failing the call on malformed input), a tag set passes
through, and any other type falls through the switch leaving `t` nil
(the empty group). -/
def resolveGroup : GroupArg → Except String TagSet
  | GroupArg.gstr s => parseTags s
  | GroupArg.gtags t => Except.ok t
  | GroupArg.gother _ => Except.ok []

/-- The structured errors `Context.LookupAll` can raise; each constructor
mirrors one `fmt.Errorf` shape with its verb slots as fields. `noEntry`
carries the tag set printed by `%v` in
`"no entry for key %v in table %v for tagset %v"` — which the code takes
from `c.Group`. -/
inductive LookupErr where
  | parseErr (msg : String)
  | unknownTable (table : String)
  | noEntry (key : String) (table : String) (tagset : TagSet)
  deriving DecidableEq

/-- The configured lookup tables `c.schedule.Conf.Lookups` together with
`l.ToExpr().Get(key, t)` (collaborators): a table name resolves to a
getter or to nothing. -/
abbrev Lookups := String → Option (String → TagSet → Option String)

/-- Go `Context.LookupAll(table, key, group)`: resolve the group argument
(parse failures abort), then look up the table (`unknown lookup table` if
absent), then the key/tagset (`no entry ... for tagset c.Group` on a
miss). -/
def LookupAll (lookups : Lookups) (c : Context) (table key : String)
    (group : GroupArg) : Except LookupErr String :=
  match resolveGroup group with
  | Except.error e => Except.error (LookupErr.parseErr e)
  | Except.ok t =>
    match lookups table with
    | none => Except.error (LookupErr.unknownTable table)
    | some tbl =>
      match tbl key t with
      | some v => Except.ok v
      | none => Except.error (LookupErr.noEntry key table c.group)

/-- Go `Context.Lookup(table, key)`: `LookupAll` on the context's own
tag group. -/
def Lookup (lookups : Lookups) (c : Context) (table key : String) :
    Except LookupErr String :=
  LookupAll lookups c table key (GroupArg.gtags c.group)

/-- One metadata entry (Go `metadata.Metasend`): name and value. -/
structure MetaEntry where
  Name : String
  Value : String
  deriving DecidableEq

/-- The possible `interface\x7b\x7d` results of `Context.GetMeta`: the full
entry list, a single value, or Go `nil`. -/
inductive MetaResult where
  | full (l : List MetaEntry)
  | value (v : String)
  | mnil
  deriving DecidableEq

/-- The metadata store `c.schedule.GetMetadata(metric, t)` (collaborator). -/
abbrev MetaFn := String → TagSet → List MetaEntry

/-- Go `Context.GetMeta(metric, name, v)`: resolve the group argument
(parse failures abort), fetch the entries; an empty `name` returns them
all, otherwise the first entry whose name matches yields its value, and
no match yields Go `nil` with no error. -/
def GetMeta (metaFn : MetaFn) (metric name : String) (v : GroupArg) :
    Except String MetaResult :=
  match resolveGroup v with
  | Except.error e => Except.error e
  | Except.ok t =>
    let meta := metaFn metric t
    if name = "" then Except.ok (MetaResult.full meta)
    else
      match meta.find? (fun m => m.Name = name) with
      | some m => Except.ok (MetaResult.value m.Value)
      | none => Except.ok MetaResult.mnil

/-- The inner cell loop of `Context.LeftJoin`: scan the result set in
order; the first candidate whose group is a superset of the anchor's
fills the cell and breaks; a non-matching candidate overwrites the cell
with the NaN sentinel and the scan continues. An empty result set leaves
the cell untouched (`nil`, modelled as `none`). -/
def joinCell (anchor : Result) : List Result → Option Result
  | [] => none
  | r :: rest =>
    if tagSubset anchor.Group r.Group then some r
    else
      match rest with
      | [] => some nanResult
      | _ :: _ => joinCell anchor rest

/-- One matrix row of `Context.LeftJoin`: column 0 is the anchor itself,
column `col+1` is the cell computed against the `col`-th subsequent
result set. -/
def joinRow (anchor : Result) (rest : List (List Result)) : List (Option Result) :=
  some anchor :: rest.map (joinCell anchor)

/-- The evaluation loop of `Context.LeftJoin`: each expression is
evaluated via `c.eval(v, false, false, 0)` in order; the first failure
aborts the whole call. -/
def evalSets (rd : ResolveDeps) (exec : ExecFn) (group : TagSet) :
    List EvalInput → Except String (List (List Result))
  | [] => Except.ok []
  | v :: vs =>
    match eval rd exec group v false false 0 with
    | Except.error e => Except.error e
    | Except.ok (res, _) =>
      match evalSets rd exec group vs with
      | Except.error e => Except.error e
      | Except.ok rest => Except.ok (res :: rest)

/-- Go `Context.LeftJoin(q...)`: fewer than two expressions is the fatal
argument-count error; otherwise all expressions are evaluated and the
matrix is built row by row from the first result set. Cells are
`Option Result` because the Go cells are pointers that can remain nil. -/
def LeftJoin (rd : ResolveDeps) (exec : ExecFn) (c : Context)
    (q : List EvalInput) : Except String (List (List (Option Result))) :=
  if q.length < 2 then
    Except.error ("need at least two expressions, got " ++ toString q.length)
  else
    match evalSets rd exec c.group q with
    | Except.error e => Except.error e
    | Except.ok [] => Except.ok []
    | Except.ok (first :: rest) => Except.ok (first.map (fun anchor => joinRow anchor rest))

/-- Go `unicode.IsSpace` (the whitespace set used by `bytes.Fields`). -/
def goIsSpace (c : Char) : Bool :=
  c = ' ' || c = '\t' || c = '\n' || c = '\x0b' || c = '\x0c' || c = '\r' ||
  c = '\x85' || c = '\xa0' || c.val = 0x1680 ||
  (0x2000 ≤ c.val && c.val ≤ 0x200a) ||
  c.val = 0x2028 || c.val = 0x2029 || c.val = 0x202f || c.val = 0x205f ||
  c.val = 0x3000

/-- Go `bytes.Fields`: the maximal runs of non-whitespace characters, in
order; whitespace separates and is dropped, empty words never appear. -/
def fields : List Char → List (List Char)
  | [] => []
  | [c] => if goIsSpace c then [] else [[c]]
  | c :: d :: rest =>
    if goIsSpace c then fields (d :: rest)
    else if goIsSpace d then [c] :: fields (d :: rest)
    else
      match fields (d :: rest) with
      | [] => [[c]]
      | w :: ws => (c :: w) :: ws

/-- Go `bytes.Join(words, " ")`: words joined by single spaces. -/
def joinWords : List (List Char) → List Char
  | [] => []
  | [w] => w
  | w :: ws => w ++ ' ' :: joinWords ws

/-- The subject post-processing
`bytes.Join(bytes.Fields(buf.Bytes()), " ")` of `Schedule.ExecuteSubject`. -/
def subjectText (s : List Char) : List Char :=
  joinWords (fields s)

/-- Go `Schedule.ExecuteSubject`: render the subject template against a
context built with `isEmail = false`, then collapse whitespace. The
template engine is the collaborator `render`. -/
def ExecuteSubject (render : Context → List Char) (group : TagSet) : List Char :=
  subjectText (render (Data group false))

/-- Helper predicate for the subject claims: no two adjacent characters
are both whitespace. -/
def noAdjacentSpace : List Char → Bool
  | a :: b :: r => (!(goIsSpace a && goIsSpace b)) && noAdjacentSpace (b :: r)
  | _ => true

/-! Concrete collaborator instances used by witnesses and
counterexamples. -/

/-- A compiler that accepts every string as a number-typed expression. -/
def rdNum : ResolveDeps :=
  { exprNew := fun s => Except.ok { Text := s, ret := RetType.number }
    replaceTags := fun t _ => t }

/-- A compiler that accepts every string as a series-typed expression. -/
def rdSeries : ResolveDeps :=
  { exprNew := fun s => Except.ok { Text := s, ret := RetType.series }
    replaceTags := fun t _ => t }

/-- A non-email context with an empty tag group. -/
def ctx0 : Context := { group := [], attachments := none }

/-- A result tagged `host=a`. -/
def rHostA : Result := { Value := EValue.num 1, Group := [("host", "a")] }

/-- A first candidate that does not superset-match `rHostA`. -/
def rMiss : Result := { Value := EValue.num 7, Group := [("host", "z")] }

/-- An earlier superset match for `rHostA`. -/
def rHit1 : Result := { Value := EValue.num 10, Group := [("host", "a"), ("dc", "1")] }

/-- A later superset match for `rHostA`. -/
def rHit2 : Result := { Value := EValue.num 20, Group := [("host", "a"), ("dc", "2")] }

/-- An engine where expression `a` yields one result and everything else
yields an empty result set. -/
def execEmptyB : ExecFn := fun e _ =>
  if e.Text = "a" then Except.ok [rHostA] else Except.ok []

/-- An engine where `a` yields the anchor and `b` yields a miss followed
by two superset matches. -/
def execTwoHits : ExecFn := fun e _ =>
  if e.Text = "a" then Except.ok [rHostA]
  else if e.Text = "b" then Except.ok [rMiss, rHit1, rHit2]
  else Except.ok []

/-- Equation lemma: the cell loop on a single-candidate set. -/
theorem joinCell_single (a r : Result) :
    joinCell a [r] = if tagSubset a.Group r.Group then some r else some nanResult := rfl

/-- Equation lemma: the cell loop steps over a non-matching head when
more candidates remain. -/
theorem joinCell_cons_cons (a r x : Result) (t : List Result) :
    joinCell a (r :: x :: t) =
      if tagSubset a.Group r.Group then some r else joinCell a (x :: t) := rfl

/-- C3: `LeftJoin` with fewer than two expressions fails with the
argument-count error `need at least two expressions, got <count>`, for
every compiler and every evaluation engine — so no expression is
resolved or executed. -/
theorem leftJoin_arg_guard (rd : ResolveDeps) (exec : ExecFn) (c : Context)
    (q : List EvalInput) (h : q.length < 2) :
    LeftJoin rd exec c q =
      Except.error ("need at least two expressions, got " ++ toString q.length) := by
  simp [LeftJoin, h]

theorem leftJoin_arg_guard_witness :
    ([] : List EvalInput).length < 2 ∧
      LeftJoin rdNum execEmptyB ctx0 [] =
        Except.error "need at least two expressions, got 0" :=
  ⟨by decide, leftJoin_arg_guard rdNum execEmptyB ctx0 [] (by decide)⟩

/-- C7: an input that is neither a string nor a compiled expression makes
the resolver fail with `expected string or expression, got <type> (<value>)`,
through every entry point (`eval`, `Eval`, `EvalAll`, `Graph`, `GraphAll`,
`LeftJoin`), for every compiler, engine and rasterizer — hence before any
compilation, execution or collaborator call. -/
theorem eval_rejects_unknown_input (rd : ResolveDeps) (exec : ExecFn)
    (gd : GraphDeps) (c : Context) (tn d : String) :
    (∀ filter series autods,
        eval rd exec c.group (EvalInput.other tn d) filter series autods =
          Except.error (badInputMsg tn d)) ∧
    CtxEval rd exec c (EvalInput.other tn d) = Except.error (badInputMsg tn d) ∧
    EvalAll rd exec c (EvalInput.other tn d) = Except.error (badInputMsg tn d) ∧
    Graph rd exec gd c (EvalInput.other tn d) = (Except.error (badInputMsg tn d), c) ∧
    GraphAll rd exec gd c (EvalInput.other tn d) = (Except.error (badInputMsg tn d), c) ∧
    (∀ v2 vs, LeftJoin rd exec c (EvalInput.other tn d :: v2 :: vs) =
        Except.error (badInputMsg tn d)) := by
  refine ⟨?_, ?_, ?_, ?_, ?_, ?_⟩ <;>
    simp [eval, evalResolve, resolveInput, CtxEval, EvalAll, Graph, GraphAll,
      graph, LeftJoin, evalSets]

/-- C1 (code bug): with a second expression whose result set is empty,
`LeftJoin` leaves the corresponding cell nil (`none`) instead of filling
it with the NaN sentinel, contradicting the code's own comment about
filling empty cells. Concrete run: `a` evaluates to one result, `b` to an
empty set. -/
theorem leftJoin_nil_cell_on_empty_set :
    LeftJoin rdNum execEmptyB ctx0 [EvalInput.str "a", EvalInput.str "b"] =
      Except.ok [[some rHostA, none]] := rfl

/-- C2: a successful `LeftJoin` builds each row from its anchor as column
0 followed by one `joinCell` scan per remaining result set, and the cell
scan selects the first candidate (in iteration order) whose tag group is
a superset of the anchor's — so of two superset matches the earlier one
wins. -/
theorem leftJoin_first_match (rd : ResolveDeps) (exec : ExecFn) (c : Context)
    (q : List EvalInput) (first : List Result) (rest : List (List Result))
    (matrix : List (List (Option Result)))
    (h1 : evalSets rd exec c.group q = Except.ok (first :: rest))
    (h2 : LeftJoin rd exec c q = Except.ok matrix) :
    matrix = first.map (fun anchor => some anchor :: rest.map (fun res => joinCell anchor res)) ∧
    (∀ (anchor r : Result) (l1 l2 : List Result),
        tagSubset anchor.Group r.Group = true →
        (∀ r' ∈ l1, tagSubset anchor.Group r'.Group = false) →
        joinCell anchor (l1 ++ r :: l2) = some r) := by
  constructor
  · by_cases hq : q.length < 2
    · simp [LeftJoin, hq] at h2
    · simp [LeftJoin, hq, h1, joinRow] at h2
      exact h2.symm
  · intro anchor r l1 l2 hmatch hnone
    induction l1 with
    | nil =>
      cases l2 with
      | nil => simp [joinCell_single, hmatch]
      | cons x t => simp [joinCell_cons_cons, hmatch]
    | cons r' l1' ih =>
      have hcons : ∃ x t, l1' ++ r :: l2 = x :: t := by
        cases l1' with
        | nil => exact ⟨r, l2, rfl⟩
        | cons a b => exact ⟨a, b ++ r :: l2, rfl⟩
      obtain ⟨x, t, hx⟩ := hcons
      have hr' : tagSubset anchor.Group r'.Group = false := hnone r' (by simp)
      have ht : ∀ r'' ∈ l1', tagSubset anchor.Group r''.Group = false := by
        intro r'' hr''
        exact hnone r'' (by simp [hr''])
      calc joinCell anchor (r' :: l1' ++ r :: l2)
        = joinCell anchor (r' :: x :: t) := by rw [List.cons_append, hx]
      _ = joinCell anchor (x :: t) := by simp [joinCell_cons_cons, hr']
      _ = joinCell anchor (l1' ++ r :: l2) := by rw [hx]
      _ = some r := ih ht

theorem leftJoin_first_match_witness :
    evalSets rdNum execTwoHits ctx0.group [EvalInput.str "a", EvalInput.str "b"] =
        Except.ok [[rHostA], [rMiss, rHit1, rHit2]] ∧
      joinCell rHostA ([rMiss] ++ rHit1 :: [rHit2]) = some rHit1 :=
  ⟨rfl,
    (leftJoin_first_match rdNum execTwoHits ctx0
        [EvalInput.str "a", EvalInput.str "b"] [rHostA] [[rMiss, rHit1, rHit2]]
        [[some rHostA, some rHit1]] rfl rfl).2 rHostA rHit1 [rMiss] [rHit2]
      (by decide) (by decide)⟩

/-- A rasterizer pair used by witnesses. -/
def gdW : GraphDeps :=
  { exprPNG := fun _ _ => Except.ok "PNGDATA"
    exprSVG := fun _ _ => Except.ok "<svg/>" }

/-- C4: when the expression resolves (including the filter rewrite) to an
expression whose declared return type is not series, `Graph` and
`GraphAll` fail with the type error
`egraph: requires an expression that returns a series`, leave the context
untouched, and the result holds for every evaluation engine and every
rasterizer — neither collaborator is invoked. -/
theorem graph_series_guard (rd : ResolveDeps) (c : Context) (v : EvalInput)
    (e : Expr) :
    (evalResolve rd c.group v true = Except.ok e → e.ret ≠ RetType.series →
      ∀ (exec : ExecFn) (gd : GraphDeps),
        Graph rd exec gd c v =
          (Except.error "egraph: requires an expression that returns a series", c)) ∧
    (evalResolve rd c.group v false = Except.ok e → e.ret ≠ RetType.series →
      ∀ (exec : ExecFn) (gd : GraphDeps),
        GraphAll rd exec gd c v =
          (Except.error "egraph: requires an expression that returns a series", c)) := by
  constructor <;> intro h1 h2 exec gd <;>
    simp [Graph, GraphAll, graph, eval, h1, h2]

theorem graph_series_guard_witness :
    evalResolve rdNum ctx0.group (EvalInput.str "q") true =
        Except.ok { Text := "q", ret := RetType.number } ∧
      ({ Text := "q", ret := RetType.number } : Expr).ret ≠ RetType.series ∧
      Graph rdNum execEmptyB gdW ctx0 (EvalInput.str "q") =
        (Except.error "egraph: requires an expression that returns a series", ctx0) :=
  ⟨rfl, by decide,
    (graph_series_guard rdNum ctx0 (EvalInput.str "q")
        { Text := "q", ret := RetType.number }).1 rfl (by decide) execEmptyB gdW⟩

/-- A configured lookup table collection holding one table `tbl` that has
no entries at all. -/
def lkEmptyTbl : Lookups := fun t => if t = "tbl" then some (fun _ _ => none) else none

/-- C6 (counterexample): the `no entry` error echoes the context's own
tag group, not the queried one. Querying table `tbl` with group
`host=b` from a context whose group is `host=a` reports tagset `host=a`. -/
theorem lookupAll_echoes_context_group :
    LookupAll lkEmptyTbl { group := [("host", "a")], attachments := none }
        "tbl" "k" (GroupArg.gtags [("host", "b")]) =
      Except.error (LookupErr.noEntry "k" "tbl" [("host", "a")]) ∧
    ([("host", "a")] : TagSet) ≠ [("host", "b")] :=
  ⟨rfl, by decide⟩

/-- C6 (amended): for a group argument that resolves to a tag set,
`LookupAll` fails with `unknown lookup table <table>` exactly when the
table is not configured, fails with
`no entry for key <key> in table <table> for tagset <group>` — echoing
the context's own tag group — exactly when the table is configured but
has no row for that key and the queried group, and returns a value only
when a matching row exists: a miss never yields a fallback. -/
theorem lookupAll_error_kinds (lookups : Lookups) (c : Context)
    (table key : String) (g : GroupArg) (t : TagSet)
    (h : resolveGroup g = Except.ok t) :
    (lookups table = none →
      LookupAll lookups c table key g = Except.error (LookupErr.unknownTable table)) ∧
    (∀ tbl, lookups table = some tbl → tbl key t = none →
      LookupAll lookups c table key g =
        Except.error (LookupErr.noEntry key table c.group)) ∧
    (∀ tbl v, lookups table = some tbl → tbl key t = some v →
      LookupAll lookups c table key g = Except.ok v) ∧
    (∀ v, LookupAll lookups c table key g = Except.ok v →
      ∃ tbl, lookups table = some tbl ∧ tbl key t = some v) := by
  refine ⟨?_, ?_, ?_, ?_⟩
  · intro hn
    simp [LookupAll, h, hn]
  · intro tbl htbl hmiss
    simp [LookupAll, h, htbl, hmiss]
  · intro tbl v htbl hhit
    simp [LookupAll, h, htbl, hhit]
  · intro v hv
    simp only [LookupAll, h] at hv
    cases htbl : lookups table with
    | none => simp [htbl] at hv
    | some tbl =>
      simp only [htbl] at hv
      cases hget : tbl key t with
      | none => simp [hget] at hv
      | some w =>
        simp only [hget] at hv
        cases hv
        exact ⟨tbl, rfl, hget⟩

theorem lookupAll_error_kinds_witness :
    resolveGroup (GroupArg.gtags [("host", "b")]) = Except.ok [("host", "b")] ∧
      LookupAll lkEmptyTbl { group := [("host", "a")], attachments := none }
          "tbl" "k" (GroupArg.gtags [("host", "b")]) =
        Except.error (LookupErr.noEntry "k" "tbl" [("host", "a")]) :=
  ⟨rfl,
    (lookupAll_error_kinds lkEmptyTbl { group := [("host", "a")], attachments := none }
        "tbl" "k" (GroupArg.gtags [("host", "b")]) [("host", "b")] rfl).2.1
      (fun _ _ => none) rfl rfl⟩

/-- A linear scan finds the first satisfying element: if nothing in the
prefix satisfies the predicate and `m` does, `find?` returns `m`. -/
theorem find?_first_of_prefix_none {α : Type} (p : α → Bool) (l1 : List α)
    (m : α) (l2 : List α) (hm : p m = true) (hn : ∀ x ∈ l1, p x = false) :
    (l1 ++ m :: l2).find? p = some m := by
  induction l1 with
  | nil => simp [List.find?_cons, hm]
  | cons a l1' ih =>
    have ha : p a = false := hn a (by simp)
    simp only [List.cons_append, List.find?_cons, ha]
    exact ih (fun x hx => hn x (by simp [hx]))

/-- A metadata store used by the C8 witness: one metric with two entries
named `n`, plus an unrelated entry. -/
def mfW : MetaFn := fun metric _ =>
  if metric = "m" then
    [{ Name := "x", Value := "vx" }, { Name := "n", Value := "v1" },
     { Name := "n", Value := "v2" }]
  else []

/-- C8: with a tag-set group, `GetMeta` returns the full entry list when
`name` is empty; otherwise it returns the value of the first entry (in
order) whose name matches, and Go `nil` without an error when none
matches; a malformed tag-string group fails the call with the parse
error. -/
theorem getMeta_spec (metaFn : MetaFn) (metric name : String) (t : TagSet) :
    (name = "" →
      GetMeta metaFn metric name (GroupArg.gtags t) =
        Except.ok (MetaResult.full (metaFn metric t))) ∧
    (name ≠ "" → (∀ m ∈ metaFn metric t, m.Name ≠ name) →
      GetMeta metaFn metric name (GroupArg.gtags t) = Except.ok MetaResult.mnil) ∧
    (name ≠ "" → ∀ (l1 : List MetaEntry) (m : MetaEntry) (l2 : List MetaEntry),
      metaFn metric t = l1 ++ m :: l2 → m.Name = name →
      (∀ m' ∈ l1, m'.Name ≠ name) →
      GetMeta metaFn metric name (GroupArg.gtags t) =
        Except.ok (MetaResult.value m.Value)) ∧
    (∀ s e, parseTags s = Except.error e →
      GetMeta metaFn metric name (GroupArg.gstr s) = Except.error e) := by
  refine ⟨?_, ?_, ?_, ?_⟩
  · intro h
    simp [GetMeta, resolveGroup, h]
  · intro h hall
    have hfind : (metaFn metric t).find? (fun m => m.Name = name) = none := by
      rw [List.find?_eq_none]
      intro m hm
      simpa using hall m hm
    simp [GetMeta, resolveGroup, h, hfind]
  · intro h l1 m l2 heq hname hnone
    have hfind : (metaFn metric t).find? (fun m => m.Name = name) = some m := by
      rw [heq]
      exact find?_first_of_prefix_none _ l1 m l2 (by simp [hname])
        (fun x hx => by simpa using hnone x hx)
    simp [GetMeta, resolveGroup, h, hfind]
  · intro s e hp
    simp [GetMeta, resolveGroup, hp]

theorem getMeta_spec_witness :
    ("n" : String) ≠ "" ∧
      mfW "m" [] = [⟨"x", "vx"⟩] ++ ⟨"n", "v1"⟩ :: [⟨"n", "v2"⟩] ∧
      GetMeta mfW "m" "n" (GroupArg.gtags []) = Except.ok (MetaResult.value "v1") ∧
      parseTags "bad" = Except.error "invalid tags: bad" ∧
      GetMeta mfW "m" "n" (GroupArg.gstr "bad") = Except.error "invalid tags: bad" :=
  ⟨by decide, rfl,
    (getMeta_spec mfW "m" "n" []).2.2.1 (by decide) [⟨"x", "vx"⟩] ⟨"n", "v1"⟩
      [⟨"n", "v2"⟩] rfl rfl (by decide),
    rfl,
    (getMeta_spec mfW "m" "n" []).2.2.2 "bad" "invalid tags: bad" rfl⟩

/-- C9: in `LookupAll` and `GetMeta`, a group argument of any type other
than string or tag set falls through the switch and is treated as the
empty tag group — the call proceeds exactly as if the empty group had
been passed, with no type error, unlike the expression resolver's
rejection of unexpected input types. -/
theorem group_arg_other_as_empty (lookups : Lookups) (c : Context)
    (table key : String) (metaFn : MetaFn) (metric name tn : String) :
    resolveGroup (GroupArg.gother tn) = Except.ok [] ∧
    LookupAll lookups c table key (GroupArg.gother tn) =
      LookupAll lookups c table key (GroupArg.gtags []) ∧
    GetMeta metaFn metric name (GroupArg.gother tn) =
      GetMeta metaFn metric name (GroupArg.gtags []) := by
  exact ⟨rfl, rfl, rfl⟩

/-- One template graph directive: `(graph ...).2` is the context after
the call (Go mutates `c.Attachments`); the pair's boolean selects
`Graph` (filtered) vs `GraphAll`. -/
def graphStep (rd : ResolveDeps) (exec : ExecFn) (gd : GraphDeps)
    (c : Context) (v : EvalInput × Bool) : Context :=
  (graph rd exec gd c v.1 v.2).2

/-- A render pass evaluating a sequence of graph directives in template
order, threading the context. -/
def graphPass (rd : ResolveDeps) (exec : ExecFn) (gd : GraphDeps)
    (c : Context) : List (EvalInput × Bool) → Context
  | [] => c
  | v :: vs => graphPass rd exec gd (graphStep rd exec gd c v) vs

/-- The expected attachment filenames `1.png`, ..., `n.png`. -/
def attNames (n : Nat) : List String :=
  (List.range n).map (fun k => toString (k + 1) ++ ".png")

/-- The attachment-list invariant: filenames are `1.png ... n.png` in
order and every content type is `image/png`. -/
def attOk (l : List Attachment) : Prop :=
  l.map (fun a => a.Filename) = attNames l.length ∧
  ∀ a ∈ l, a.ContentType = "image/png"

/-- One graph call either leaves the attachment list unchanged (any
failure, or a non-email pass) or appends exactly one attachment named
`<len+1>.png` with content type `image/png`. -/
theorem graph_step_attachments (rd : ResolveDeps) (exec : ExecFn) (gd : GraphDeps)
    (c : Context) (v : EvalInput) (filter : Bool) :
    (graph rd exec gd c v filter).2.attachments = c.attachments ∨
    ∃ l d, c.attachments = some l ∧
      (graph rd exec gd c v filter).2.attachments =
        some (l ++ [{ Data := d, Filename := toString (l.length + 1) ++ ".png",
                      ContentType := "image/png" }]) := by
  unfold graph
  cases heval : eval rd exec c.group v filter true 1000 with
  | error e => left; rfl
  | ok p =>
    obtain ⟨res, title⟩ := p
    cases hatt : c.attachments with
    | none =>
      cases hsvg : gd.exprSVG res title with
      | error e => left; simp [hsvg, hatt]
      | ok svg => left; simp [hsvg, hatt]
    | some atts =>
      cases hpng : gd.exprPNG res title with
      | error e => left; simp [hatt, hpng]
      | ok d => right; exact ⟨atts, d, rfl, by simp [hatt, hpng]⟩

/-- Appending the next numbered attachment preserves the invariant. -/
theorem attOk_append (l : List Attachment) (d : String) (h : attOk l) :
    attOk (l ++ [{ Data := d, Filename := toString (l.length + 1) ++ ".png",
                   ContentType := "image/png" }]) := by
  constructor
  · simp only [List.map_append, List.length_append, List.map_cons, List.map_nil,
      List.length_cons, List.length_nil, h.1]
    simp [attNames, List.range_succ]
  · intro a ha
    rcases List.mem_append.mp ha with hin | hin
    · exact h.2 a hin
    · simp only [List.mem_singleton] at hin
      rw [hin]

/-- A non-email pass never gains an attachment list. -/
theorem graphPass_none (rd : ResolveDeps) (exec : ExecFn) (gd : GraphDeps)
    (vs : List (EvalInput × Bool)) (c : Context) (h : c.attachments = none) :
    (graphPass rd exec gd c vs).attachments = none := by
  induction vs generalizing c with
  | nil => exact h
  | cons v vs ih =>
    apply ih
    rcases graph_step_attachments rd exec gd c v.1 v.2 with hsame | ⟨l, d, hl, _⟩
    · rw [graphStep, hsame]; exact h
    · rw [hl] at h; cases h

/-- Every graph step preserves the attachment invariant across a pass. -/
theorem graphPass_invariant (rd : ResolveDeps) (exec : ExecFn) (gd : GraphDeps)
    (vs : List (EvalInput × Bool)) (c : Context)
    (h : ∀ l, c.attachments = some l → attOk l) :
    ∀ l, (graphPass rd exec gd c vs).attachments = some l → attOk l := by
  induction vs generalizing c with
  | nil => exact h
  | cons v vs ih =>
    apply ih
    intro l hl
    rw [graphStep] at hl
    rcases graph_step_attachments rd exec gd c v.1 v.2 with hsame | ⟨l0, d, hl0, hstep⟩
    · exact h l (by rw [← hsame]; exact hl)
    · rw [hstep] at hl
      cases hl
      exact attOk_append l0 d (h l0 hl0)

/-- C5: in an email render pass (attachment list initialized empty), the
attachments accumulated by any sequence of `Graph`/`GraphAll` calls are
named `1.png`, `2.png`, ... in template-evaluation order, one per
successfully rendered graph, each with content type `image/png`; in a
non-email pass no attachments are ever appended. -/
theorem graph_attachment_sequencing (rd : ResolveDeps) (exec : ExecFn)
    (gd : GraphDeps) (g : TagSet) (vs : List (EvalInput × Bool)) :
    (∀ l, (graphPass rd exec gd (Data g true) vs).attachments = some l →
      l.map (fun a => a.Filename) = attNames l.length ∧
        ∀ a ∈ l, a.ContentType = "image/png") ∧
    (graphPass rd exec gd (Data g false) vs).attachments = none := by
  constructor
  · intro l hl
    refine graphPass_invariant rd exec gd vs (Data g true) ?_ l hl
    intro l0 h0
    have : l0 = [] := by
      simp only [Data] at h0
      simpa using h0.symm
    rw [this]
    exact ⟨by simp [attNames], by simp⟩
  · exact graphPass_none rd exec gd vs (Data g false) rfl

/-- An engine that always returns one result (used by the C5 witness). -/
def execSeries : ExecFn := fun _ _ => Except.ok [rHostA]

/-- Two graph directives: one `Graph`, one `GraphAll`. -/
def vsW : List (EvalInput × Bool) := [(EvalInput.str "x", true), (EvalInput.str "y", false)]

theorem graph_attachment_sequencing_witness :
    (graphPass rdSeries execSeries gdW (Data [] true) vsW).attachments =
        some [{ Data := "PNGDATA", Filename := "1.png", ContentType := "image/png" },
              { Data := "PNGDATA", Filename := "2.png", ContentType := "image/png" }] ∧
      List.map (fun a => a.Filename)
          [({ Data := "PNGDATA", Filename := "1.png", ContentType := "image/png" } : Attachment),
           { Data := "PNGDATA", Filename := "2.png", ContentType := "image/png" }] =
        attNames 2 ∧
      (graphPass rdSeries execSeries gdW (Data [] false) vsW).attachments = none :=
  ⟨rfl,
    ((graph_attachment_sequencing rdSeries execSeries gdW [] vsW).1 _ rfl).1,
    (graph_attachment_sequencing rdSeries execSeries gdW [] vsW).2⟩

/-- Words are clean: non-empty and whitespace-free. -/
def cleanWords (ws : List (List Char)) : Prop :=
  ∀ w ∈ ws, w ≠ [] ∧ ∀ c ∈ w, goIsSpace c = false

/-- Equation lemma for the adjacency scan. -/
theorem noAdj_nil : noAdjacentSpace [] = true := rfl

/-- Equation lemma for the adjacency scan. -/
theorem noAdj_single (a : Char) : noAdjacentSpace [a] = true := rfl

/-- Equation lemma for the adjacency scan. -/
theorem noAdj_cons_cons (a b : Char) (r : List Char) :
    noAdjacentSpace (a :: b :: r) =
      ((!(goIsSpace a && goIsSpace b)) && noAdjacentSpace (b :: r)) := rfl

/-- Equation lemma for `fields` on the empty input. -/
theorem fields_nil : fields [] = [] := rfl

/-- Equation lemma for `fields` on a single character. -/
theorem fields_one (c : Char) :
    fields [c] = if goIsSpace c then [] else [[c]] := rfl

/-- Equation lemma for `fields` on two or more characters. -/
theorem fields_cons₂ (c d : Char) (rest : List Char) :
    fields (c :: d :: rest) =
      if goIsSpace c then fields (d :: rest)
      else if goIsSpace d then [c] :: fields (d :: rest)
      else
        match fields (d :: rest) with
        | [] => [[c]]
        | w :: ws => (c :: w) :: ws := rfl

/-- A singleton word of a non-space character is clean. -/
theorem clean_singleton (c : Char) (hc : goIsSpace c = false) :
    ([c] : List Char) ≠ [] ∧ ∀ x ∈ ([c] : List Char), goIsSpace x = false := by
  refine ⟨by simp, ?_⟩
  intro x hx
  simp only [List.mem_singleton] at hx
  rw [hx]
  exact hc

/-- `bytes.Fields` produces only clean words. -/
theorem fields_clean (s : List Char) : cleanWords (fields s) := by
  induction s with
  | nil => intro w hw; simp [fields_nil] at hw
  | cons c rest ih =>
    cases rest with
    | nil =>
      intro w hw
      rw [fields_one] at hw
      by_cases hc : goIsSpace c
      · simp [hc] at hw
      · have hc' : goIsSpace c = false := by simpa using hc
        rw [if_neg (by simp [hc'])] at hw
        simp only [List.mem_singleton] at hw
        subst hw
        exact clean_singleton c hc'
    | cons d rest' =>
      intro w hw
      rw [fields_cons₂] at hw
      by_cases hc : goIsSpace c
      · rw [if_pos hc] at hw
        exact ih w hw
      · have hc' : goIsSpace c = false := by simpa using hc
        rw [if_neg hc] at hw
        by_cases hd : goIsSpace d
        · rw [if_pos hd] at hw
          rcases List.mem_cons.mp hw with hw1 | hw2
          · subst hw1
            exact clean_singleton c hc'
          · exact ih w hw2
        · rw [if_neg hd] at hw
          cases hf : fields (d :: rest') with
          | nil =>
            rw [hf] at hw
            simp only [List.mem_singleton] at hw
            subst hw
            exact clean_singleton c hc'
          | cons w0 ws =>
            rw [hf] at hw
            rcases List.mem_cons.mp hw with hw1 | hw2
            · subst hw1
              have h0 := ih w0 (by rw [hf]; exact List.mem_cons_self w0 ws)
              refine ⟨by simp, ?_⟩
              intro x hx
              rcases List.mem_cons.mp hx with hx1 | hx2
              · rw [hx1]; exact hc'
              · exact h0.2 x hx2
            · exact ih w (by rw [hf]; exact List.mem_cons_of_mem w0 hw2)

/-- Prepending whitespace-free characters preserves the adjacency scan. -/
theorem noAdj_append (w ys : List Char) (hw : ∀ c ∈ w, goIsSpace c = false)
    (hys : noAdjacentSpace ys = true) : noAdjacentSpace (w ++ ys) = true := by
  induction w with
  | nil => simpa using hys
  | cons a w' ih =>
    have ha : goIsSpace a = false := hw a (by simp)
    have ih' : noAdjacentSpace (w' ++ ys) = true :=
      ih (fun c hc => hw c (List.mem_cons_of_mem a hc))
    rw [List.cons_append]
    cases hcase : w' ++ ys with
    | nil => exact noAdj_single a
    | cons b t =>
      rw [noAdj_cons_cons, ha]
      simp only [Bool.false_and, Bool.not_false, Bool.true_and]
      rw [← hcase]
      exact ih'

/-- The head of a non-trivial word join is the head of its first word. -/
theorem joinWords_head_not_space (ws : List (List Char)) (h : cleanWords ws) :
    ∀ c, (joinWords ws).head? = some c → goIsSpace c = false := by
  intro c hc
  cases ws with
  | nil => simp [joinWords] at hc
  | cons w ws' =>
    have hclean := h w (List.mem_cons_self w ws')
    obtain ⟨a, t, rfl⟩ : ∃ a t, w = a :: t := by
      cases w with
      | nil => exact absurd rfl hclean.1
      | cons a t => exact ⟨a, t, rfl⟩
    cases ws' with
    | nil =>
      simp only [joinWords, List.head?_cons, Option.some_inj] at hc
      rw [← hc]
      exact hclean.2 a (by simp)
    | cons w2 ws'' =>
      simp only [joinWords, List.cons_append, List.head?_cons, Option.some_inj] at hc
      rw [← hc]
      exact hclean.2 a (by simp)

/-- A join of clean words is never empty when the word list is non-empty. -/
theorem joinWords_ne_nil (w : List Char) (ws : List (List Char))
    (h : cleanWords (w :: ws)) : joinWords (w :: ws) ≠ [] := by
  have hw := h w (List.mem_cons_self w ws)
  cases ws with
  | nil => exact hw.1
  | cons w2 ws' =>
    show w ++ ' ' :: joinWords (w2 :: ws') ≠ []
    cases w with
    | nil => exact absurd rfl hw.1
    | cons a t => simp

/-- The join of clean words has no two adjacent whitespace characters. -/
theorem noAdj_joinWords (ws : List (List Char)) (h : cleanWords ws) :
    noAdjacentSpace (joinWords ws) = true := by
  induction ws with
  | nil => exact noAdj_nil
  | cons w ws' ih =>
    have hw := h w (List.mem_cons_self w ws')
    have htail : cleanWords ws' := fun x hx => h x (List.mem_cons_of_mem w hx)
    cases ws' with
    | nil =>
      show noAdjacentSpace (joinWords [w]) = true
      have : joinWords [w] = w ++ [] := by simp [joinWords]
      rw [this]
      exact noAdj_append w [] hw.2 noAdj_nil
    | cons w2 ws'' =>
      show noAdjacentSpace (w ++ ' ' :: joinWords (w2 :: ws'')) = true
      refine noAdj_append w _ hw.2 ?_
      cases hj : joinWords (w2 :: ws'') with
      | nil => exact noAdj_single ' '
      | cons b t =>
        rw [noAdj_cons_cons]
        have hb : goIsSpace b = false := by
          refine joinWords_head_not_space (w2 :: ws'') htail b ?_
          rw [hj]
          rfl
        rw [hb]
        simp only [Bool.and_false, Bool.not_false, Bool.true_and]
        rw [← hj]
        exact ih htail

/-- The last character of a join of clean words is not whitespace. -/
theorem joinWords_getLast_not_space (ws : List (List Char)) (h : cleanWords ws) :
    ∀ c, (joinWords ws).getLast? = some c → goIsSpace c = false := by
  induction ws with
  | nil => intro c hc; simp [joinWords] at hc
  | cons w ws' ih =>
    intro c hc
    have hw := h w (List.mem_cons_self w ws')
    have htail : cleanWords ws' := fun x hx => h x (List.mem_cons_of_mem w hx)
    cases ws' with
    | nil =>
      have hj : joinWords [w] = w := by simp [joinWords]
      rw [hj] at hc
      obtain ⟨hne, rfl⟩ := List.mem_getLast?_eq_getLast (Option.mem_def.mpr hc)
      exact hw.2 _ (List.getLast_mem hne)
    | cons w2 ws'' =>
      have hj : joinWords (w :: w2 :: ws'') = w ++ ' ' :: joinWords (w2 :: ws'') := rfl
      rw [hj] at hc
      have hne2 : joinWords (w2 :: ws'') ≠ [] := joinWords_ne_nil w2 ws'' htail
      obtain ⟨b, t, hbt⟩ : ∃ b t, joinWords (w2 :: ws'') = b :: t := by
        cases hx : joinWords (w2 :: ws'') with
        | nil => exact absurd hx hne2
        | cons b t => exact ⟨b, t, rfl⟩
      rw [hbt, List.getLast?_append_cons, ← List.singleton_append, List.getLast?_append_cons,
        ← hbt] at hc
      exact ih htail c hc

/-- C10: `ExecuteSubject` renders the subject against a context built
with `isEmail = false` (so its attachment list is nil and never
accumulates), and post-processes the rendered bytes by splitting on
whitespace and re-joining with single spaces: the output has no two
adjacent whitespace characters, and neither its first nor its last
character is whitespace. -/
theorem executeSubject_normalizes (render : Context → List Char) (g : TagSet) :
    (Data g false).attachments = none ∧
    ExecuteSubject render g = joinWords (fields (render (Data g false))) ∧
    noAdjacentSpace (ExecuteSubject render g) = true ∧
    (∀ c, (ExecuteSubject render g).head? = some c → goIsSpace c = false) ∧
    (∀ c, (ExecuteSubject render g).getLast? = some c → goIsSpace c = false) := by
  refine ⟨rfl, rfl, ?_, ?_, ?_⟩
  · exact noAdj_joinWords _ (fields_clean _)
  · exact joinWords_head_not_space _ (fields_clean _)
  · exact joinWords_getLast_not_space _ (fields_clean _)

theorem executeSubject_normalizes_witness :
    noAdjacentSpace (ExecuteSubject (fun _ => ("  a   b ").data) []) = true ∧
      goIsSpace 'a' = false :=
  ⟨(executeSubject_normalizes (fun _ => ("  a   b ").data) []).2.2.1,
    (executeSubject_normalizes (fun _ => ("  a   b ").data) []).2.2.2.1 'a' rfl⟩

end BosunSched
